import Mathlib

/-!
Verification of the rewriting core of an early `rustfmt`: the multi-file
change-tracking buffer (`src/changes.rs`) and the structural rewriting
visitor (`src/visitor.rs`), shallowly embedded in Lean.

Byte positions of the flat offset space are `Nat` (the Rust code uses `u32`
via `BytePos`; no arithmetic here approaches `u32::MAX`, and where the code's
wrap/underflow behaviour matters the embedding keeps the exact expression).
Strings of the Rust code are `List Char`; file names are `String`.
Collaborator capabilities of the front-end (span-to-file-name lookup,
span-to-snippet extraction, per-construct formatters) are fields of an `Env`
record, as the spec's section 6 describes them.
-/

namespace Rustfmt

/-! ## Position Index: `ChangeSet::filespans_for_span` (changes.rs lines 57-91)

`file_spans : Vec<(u32, u32)>` is embedded as a `List (Nat × Nat)` sorted by
the caller (`from_codemap` sorts it).  The `assert!(start.0 <= end.0)` at
line 58 aborts the process when violated; the embedding returns `none` for
that case and `some pieces` when the assertion passes. -/

def u32max : Nat := 4294967295

/-- Models `self.file_spans.binary_search(&(start.0, u32::MAX))` on the sorted
`file_spans` followed by the match `Ok(i) => i, Err(0) => 0, Err(i) => i - 1`
(changes.rs lines 66-70).  On a sorted vector, `binary_search` yields `Ok i`
when the target sits at index `i` and otherwise `Err` of the insertion point,
i.e. the number of elements below the target. -/
def binsearch_idx (file_spans : List (Nat × Nat)) (start : Nat) : Nat :=
  let target : Nat × Nat := (start, u32max)
  let cnt := (file_spans.filter
    (fun p => p.1 < start || (p.1 = start && p.2 < u32max))).length
  if file_spans.get? cnt = some target then cnt
  else if cnt = 0 then 0 else cnt - 1

/-- The `loop` of `filespans_for_span` (changes.rs lines 74-90).  The Rust
loop walks an index `idx` through `file_spans`; the embedding recurses on the
suffix `file_spans.drop idx` instead, so `cur_file` is the suffix's head, the
exit test `idx >= self.file_spans.len()` (after the increment) is "the tail
is empty", and `self.file_spans[idx].0` (the incremented index) is the head
of the tail.  The empty-suffix case is the out-of-bounds read
`self.file_spans[idx]`, unreachable for the calls the function makes (the
vector is non-empty and `idx` starts in range).  `cur_file.1 - 1` is the
code's own expression (`::std::cmp::min(cur_file.1 - 1, end.0)`). -/
def filespans_loop (e : Nat) : List (Nat × Nat) → Nat → List (Nat × Nat)
  | [], _ => []
  | cur_file :: rest, start =>
    if rest = [] ∨ start ≥ e then
      if start < e then [(start, e)] else []
    else
      let end2 := min (cur_file.2 - 1) e
      (if start < end2 then [(start, end2)] else [])
        ++ filespans_loop e rest (rest.headD (0, 0)).1

/-- `ChangeSet::filespans_for_span` (changes.rs lines 57-91).  `none` models
the aborted execution of a violated `assert!(start.0 <= end.0)`. -/
def filespans_for_span (file_spans : List (Nat × Nat)) (start e : Nat) :
    Option (List (Nat × Nat)) :=
  if start ≤ e then
    some (if file_spans.length = 0 then []
          else filespans_loop e (file_spans.drop (binsearch_idx file_spans start))
                 start)
  else none

/-! ## Newline rendering: `write_system_newlines` (changes.rs lines 152-172) -/

/-- Modelled from the spec: the configuration's newline style (`NewlineStyle`
is declared in the crate root, which is not among the repository's source
files); the spec's section 6 names the two styles Unix and Windows. -/
inductive NewlineStyle where
  | Unix : NewlineStyle
  | Windows : NewlineStyle
deriving DecidableEq, Repr

/-- The character loop of the `NewlineStyle::Windows` arm (changes.rs lines
162-168): `'\n'` is written as `"\r\n"`, `'\r'` is skipped (`continue`), any
other character is written unchanged. -/
def windows_newlines : List Char → List Char
  | [] => []
  | c :: rest =>
    if c = '\n' then '\r' :: '\n' :: windows_newlines rest
    else if c = '\r' then windows_newlines rest
    else c :: windows_newlines rest

/-- `write_system_newlines` (changes.rs lines 152-172): the Unix arm writes
the buffer text unchanged, the Windows arm runs the character loop. -/
def write_system_newlines (style : NewlineStyle) (text : List Char) :
    List Char :=
  match style with
  | NewlineStyle.Unix => text
  | NewlineStyle.Windows => windows_newlines text

/-- Stated from the spec's words, for comparison with the code's translation:
drop every pre-existing `'\r'`, then turn every `'\n'` into exactly one
`"\r\n"`, leaving all other characters unchanged. -/
def windows_newlines_spec (text : List Char) : List Char :=
  (text.filter (fun c => c ≠ '\r')).flatMap
    (fun c => if c = '\n' then ['\r', '\n'] else [c])

/-- No bare `'\r'` (and hence no `"\r\r\n"`): every `'\r'` of the list is
immediately followed by `'\n'`. -/
def noBareCR : List Char → Bool
  | [] => true
  | '\r' :: '\n' :: rest => noBareCR rest
  | '\r' :: _ => false
  | _ :: rest => noBareCR rest

/-! ## Filesystem world for `write_file` / `write_all_files`
(changes.rs lines 132-211)

The filesystem is an association list from file name to content; a world also
carries the standard-output text, two failure oracles that say which
`File::create` calls and which renames fail (the spec's section 8 asks for
*simulated* I/O failures), and the ordered trace `ops` of the filesystem
operations that completed, which is what the order-of-operations claims are
about.  `Except Unit` stands for `Result<_, io::Error>`: the error's payload
is irrelevant to every claim. -/

/-- Association-list lookup (first binding of the name wins). -/
def fsLookup : List (String × List Char) → String → Option (List Char)
  | [], _ => none
  | (k, c) :: rest, n => if k = n then some c else fsLookup rest n

/-- Association-list update: replaces the first binding of the name, or
appends a new binding. -/
def fsInsert : List (String × List Char) → String → List Char →
    List (String × List Char)
  | [], n, c => [(n, c)]
  | (k, c0) :: rest, n, c =>
    if k = n then (k, c) :: rest else (k, c0) :: fsInsert rest n c

/-- Association-list removal of the first binding of the name. -/
def fsRemove : List (String × List Char) → String → List (String × List Char)
  | [], _ => []
  | (k, c) :: rest, n => if k = n then rest else (k, c) :: fsRemove rest n

/-- A completed filesystem operation, recorded in the world's trace. -/
inductive FsOp where
  | createWrite : String → List Char → FsOp
  | rename : String → String → FsOp
deriving DecidableEq, Repr

structure World where
  fs : List (String × List Char)
  stdout : List Char
  failCreates : List String
  failRenames : List (String × String)
  ops : List FsOp
deriving DecidableEq, Repr

/-- `File::create` followed by writing the full rendered content (the scope
block of changes.rs lines 181-185 and the create-and-write of the NewFile
arm).  Fails when the oracle says creating or writing this name fails. -/
def fileCreateWrite (w : World) (name : String) (content : List Char) :
    Except Unit World :=
  if name ∈ w.failCreates then Except.error ()
  else Except.ok { w with
    fs := fsInsert w.fs name content,
    ops := w.ops ++ [FsOp.createWrite name content] }

/-- `std::fs::rename`: fails when the source name does not exist or when the
oracle says this rename fails; otherwise moves the content. -/
def fsRename (w : World) (src dst : String) : Except Unit World :=
  if (src, dst) ∈ w.failRenames then Except.error ()
  else
    match fsLookup w.fs src with
    | none => Except.error ()
    | some c => Except.ok { w with
        fs := fsInsert (fsRemove w.fs src) dst c,
        ops := w.ops ++ [FsOp.rename src dst] }

/-- Modelled from the spec: the four output modes (`WriteMode` is declared in
the crate root, which is not among the repository's source files); the spec's
section 6 lists Overwrite, NewFile(extension), Display and Return.  The
payload of the code's `WriteMode::Return(_)` is matched with a wildcard in
changes.rs and carries nothing the claims mention. -/
inductive WriteMode where
  | Overwrite : WriteMode
  | NewFile : String → WriteMode
  | Display : WriteMode
  | Return : WriteMode
deriving DecidableEq, Repr

/-- `ChangeSet::write_file` (changes.rs lines 146-211).  The buffer's text
is `text`; every destination receives it through `write_system_newlines`.
The pair returned is the world after the call together with
`Result<Option<String>, io::Error>`: the first `try!` that fails propagates
its error and leaves the world as the completed operations left it. -/
def write_file (style : NewlineStyle) (w : World) (filename : String)
    (text : List Char) (mode : WriteMode) :
    World × Except Unit (Option (List Char)) :=
  match mode with
  | WriteMode.Overwrite =>
    -- "Do a little dance to make writing safer - write to a temp file
    -- rename the original to a .bk, then rename the temp file to the
    -- original."
    let tmp_name := filename ++ ".tmp"
    let bk_name := filename ++ ".bk"
    match fileCreateWrite w tmp_name (write_system_newlines style text) with
    | Except.error er => (w, Except.error er)
    | Except.ok w1 =>
      match fsRename w1 filename bk_name with
      | Except.error er => (w1, Except.error er)
      | Except.ok w2 =>
        match fsRename w2 tmp_name filename with
        | Except.error er => (w2, Except.error er)
        | Except.ok w3 => (w3, Except.ok none)
  | WriteMode.NewFile extn =>
    match fileCreateWrite w (filename ++ "." ++ extn)
        (write_system_newlines style text) with
    | Except.error er => (w, Except.error er)
    | Except.ok w1 => (w1, Except.ok none)
  | WriteMode.Display =>
    ({ w with stdout := w.stdout ++ (filename ++ ":\n\n").data
        ++ write_system_newlines style text }, Except.ok none)
  | WriteMode.Return =>
    (w, Except.ok (some (write_system_newlines style text)))

/-- `ChangeSet::write_all_files` (changes.rs lines 132-144): calls
`write_file` for every file of the file map (embedded as the list `files` in
iteration order), inserts every `Some` result into the result map, and the
first error aborts the loop and propagates (`try!`). -/
def write_all_files (style : NewlineStyle) (w : World)
    (files : List (String × List Char)) (mode : WriteMode) :
    World × Except Unit (List (String × List Char)) :=
  match files with
  | [] => (w, Except.ok [])
  | (filename, text) :: rest =>
    match write_file style w filename text mode with
    | (w1, Except.error er) => (w1, Except.error er)
    | (w1, Except.ok one_result) =>
      match write_all_files style w1 rest mode with
      | (w2, Except.error er) => (w2, Except.error er)
      | (w2, Except.ok result) =>
        (w2, Except.ok (match one_result with
          | some r => (filename, r) :: result
          | none => result))

/-! ## Syntax tree for the rewriting visitor (visitor.rs)

The visitor's node kinds, restricted to the shapes its `match` arms
distinguish.  Expressions are leaves for the visitor: `visit_expr` hands the
whole expression to the collaborator `rewrite_expr` and does not descend.
`Item_` variants the second `match` of `visit_item` lumps into `_ =>
visit::walk_item(..)` and that contain nothing the visitor observes are
`itemOther`.  The members of an impl or trait body are embedded as items
(in libsyntax they are `ImplItem`/`TraitItem` values whose visit methods
apply the same attribute gate); no claim touches those bodies. -/

structure Span where
  lo : Nat
  hi : Nat
deriving DecidableEq, Repr

/-- `ast::MetaItem`, as far as `is_skip` inspects it: a bare word or
anything else. -/
inductive MetaItem where
  | metaWord : String → MetaItem
  | metaOther : MetaItem
deriving DecidableEq, Repr

/-- `ast::Attribute`: its span and its meta item (`a.node.value`). -/
structure Attribute where
  span : Span
  value : MetaItem
deriving DecidableEq, Repr

/-- `ast::ViewPath_`: the three shapes of a `use` path. -/
inductive ViewPath where
  | viewPathList : String → List String → ViewPath
  | viewPathGlob : ViewPath
  | viewPathSimple : ViewPath
deriving DecidableEq, Repr

inductive Expr where
  | mk : Span → Expr
deriving DecidableEq, Repr

def Expr.span : Expr → Span
  | Expr.mk s => s

mutual
inductive Item where
  | mk : String → List Attribute → Bool → Span → ItemKind → Item

inductive ItemKind where
  | itemUse : ViewPath → ItemKind
  | itemMod : Span → List Item → ItemKind
  | itemImpl : List Item → ItemKind
  | itemTrait : List Item → ItemKind
  | itemExternCrate : ItemKind
  | itemStruct : ItemKind
  | itemOther : ItemKind
end

def Item.ident : Item → String
  | Item.mk i _ _ _ _ => i

def Item.attrs : Item → List Attribute
  | Item.mk _ a _ _ _ => a

def Item.vis : Item → Bool
  | Item.mk _ _ v _ _ => v

def Item.span : Item → Span
  | Item.mk _ _ _ s _ => s

def Item.node : Item → ItemKind
  | Item.mk _ _ _ _ n => n

def isItemMod : ItemKind → Bool
  | ItemKind.itemMod _ _ => true
  | _ => false

/-- `ast::Stmt`, as far as `visit_stmt` distinguishes it: a statement that is
an item declaration (`StmtDecl` of `DeclItem`) or an expression statement. -/
inductive Stmt where
  | stmtExpr : Span → Expr → Stmt
  | stmtDeclItem : Span → Item → Stmt

def Stmt.span : Stmt → Span
  | Stmt.stmtExpr s _ => s
  | Stmt.stmtDeclItem s _ => s

/-- `ast::Block`: statements and an optional trailing expression. -/
inductive Block where
  | mk : Span → List Stmt → Option Expr → Block

/-! ## The rewriting visitor's state and collaborators -/

/-- An observable effect of the traversal, recorded in order.  The trace is
instrumentation of the embedding: `flushedGap lo hi` marks a flush of the
missing span `[lo, hi)` (a `format_missing` / `format_missing_with_indent`
call that found a non-empty gap), `wroteSpan lo hi` marks a
`push_str_span` of rendered text at the span `[lo, hi)`, and
`calledRewriteUseList indent one multi` marks the `rewrite_use_list`
collaborator call with the budgets the visitor computed. -/
inductive Event where
  | flushedGap : Nat → Nat → Event
  | wroteSpan : Nat → Nat → Event
  | calledRewriteUseList : Nat → Nat → Nat → Event
deriving DecidableEq, Repr

/-- `FmtVisitor`'s mutable state: the change set's per-file buffers
(`changes`), the write cursor (`last_pos`), the indent level
(`block_indent`), plus the embedding's effect trace and a flag for the
`unwrap()` panic of a `push_str` on an unknown file name. -/
structure FmtVisitor where
  changes : List (String × List Char)
  last_pos : Nat
  block_indent : Nat
  trace : List Event
  panicked : Bool
deriving DecidableEq, Repr

/-- The external collaborators and configuration (spec section 6): codemap
lookups, the per-construct formatters, and the width/indent configuration
values read through `config!`. -/
structure Env where
  max_width : Nat
  ideal_width : Nat
  tab_spaces : Nat
  file_name_of : Nat → String
  span_to_snippet : Nat → Nat → Option (List Char)
  rewrite_expr : Expr → Nat → Nat → List Char
  rewrite_use_list : Nat → Nat → Nat → String → List String → Bool → List Char
  rewrite_struct : String → Bool → Span → List Char
  gap_render : Nat → Nat → Nat → List Char

/-- `codemap.span_to_filename(span)`: the file of the span's low position. -/
def span_to_filename (env : Env) (sp : Span) : String :=
  env.file_name_of sp.lo

/-- Modelled from the spec: the suppression marker token recognized as an
attribute name (`SKIP_ANNOTATION` is declared in the crate root, which is
not among the repository's source files). -/
def SKIP_ANNOTATION : String := "rustfmt_skip"

/-- `is_skip` (visitor.rs lines 329-334). -/
def is_skip : MetaItem → Bool
  | MetaItem.metaWord s => s = SKIP_ANNOTATION
  | MetaItem.metaOther => false

/-- Some attribute of the list is the skip marker. -/
def containsSkip (attrs : List Attribute) : Bool :=
  attrs.any (fun a => is_skip a.value)

/-- `FmtVisitor::snippet` (visitor.rs lines 258-268): the looked-up text, or
the empty string when the codemap cannot produce one.  The second component
is the position range the failure arm prints (`println!`), `none` when
nothing is logged. -/
def snippet (env : Env) (sp : Span) : List Char × Option Span :=
  match env.span_to_snippet sp.lo sp.hi with
  | some s => (s, none)
  | none => ([], some sp)

/-- `ChangeSet::push_str` (changes.rs lines 93-96): appends to the named
file's buffer; the `unwrap()` on an unknown name is the `panicked` flag. -/
def push_str (v : FmtVisitor) (filename : String) (text : List Char) :
    FmtVisitor :=
  match fsLookup v.changes filename with
  | some buf => { v with changes := fsInsert v.changes filename (buf ++ text) }
  | none => { v with panicked := true }

/-- `ChangeSet::push_str_span` (changes.rs lines 98-101), plus the trace
record of the write. -/
def push_str_span (env : Env) (v : FmtVisitor) (sp : Span)
    (text : List Char) : FmtVisitor :=
  let v1 := push_str v (span_to_filename env sp) text
  { v1 with trace := v1.trace ++ [Event.wroteSpan sp.lo sp.hi] }

/-- `ChangeSet::cur_offset_span` (changes.rs lines 107-114); the
`StringBuffer::cur_offset` it reads is modelled from the spec: the buffer's
current character length (spec section 4.2, `current_length`). -/
def cur_offset_span (env : Env) (v : FmtVisitor) (sp : Span) : Nat :=
  ((fsLookup v.changes (span_to_filename env sp)).getD []).length

/-- Modelled from the spec: `format_missing` (declared in the missing
`missed_spans.rs`) flushes the gap from the write cursor to `e` verbatim —
the snippet of `[last_pos, e)` — to the owning file's buffer and advances
the cursor to `e`; an empty gap flushes nothing (spec section 4.3 step 1). -/
def format_missing (env : Env) (v : FmtVisitor) (e : Nat) : FmtVisitor :=
  if v.last_pos < e then
    let sp : Span := ⟨v.last_pos, e⟩
    let v1 := push_str v (span_to_filename env sp) (snippet env sp).1
    { v1 with last_pos := e, trace := v1.trace ++ [Event.flushedGap sp.lo sp.hi] }
  else v

/-- Modelled from the spec: `format_missing_with_indent` (declared in the
missing `missed_spans.rs`) flushes the gap from the write cursor to `e`
through the collaborator gap renderer at the current indent (comments kept,
blank runs collapsed, re-indented) and advances the cursor to `e` (spec
section 4.3 step 1). -/
def format_missing_with_indent (env : Env) (v : FmtVisitor) (e : Nat) :
    FmtVisitor :=
  if v.last_pos < e then
    let sp : Span := ⟨v.last_pos, e⟩
    let v1 := push_str v (span_to_filename env sp)
      (env.gap_render sp.lo sp.hi v.block_indent)
    { v1 with last_pos := e, trace := v1.trace ++ [Event.flushedGap sp.lo sp.hi] }
  else v

/-- `utils::make_indent` (declared in the missing `utils.rs`, modelled from
its use): the indent as that many spaces. -/
def make_indent (width : Nat) : List Char :=
  List.replicate width ' '

/-- Rust `str::trim` on the embedded strings: leading and trailing
whitespace removed. -/
def isWhitespaceChar (c : Char) : Bool :=
  c = ' ' || c = '\n' || c = '\t' || c = '\r'

def trimChars (s : List Char) : List Char :=
  ((s.dropWhile isWhitespaceChar).reverse.dropWhile isWhitespaceChar).reverse

/-- The loop body of `rewrite_attrs` (visitor.rs lines 290-326), with the
enumeration index `i`, the total attribute count and the previous attribute
carried through the recursion.  `none` is the `return None` of the skip
check. -/
def rewrite_attrs_go (env : Env) (ind : List Char) (total : Nat) :
    Nat → Option Attribute → List Attribute → Option (List Char)
  | _, _, [] => some []
  | i, prev, a :: rest =>
    if is_skip a.value then none
    else
      let a_str := (snippet env a.span).1
      let pre :=
        match prev with
        | none => []
        | some p =>
          let comment := (snippet env ⟨p.span.hi, a.span.lo⟩).1
          let multi_line := ['/', '/'].isPrefixOf a_str
            && comment.count '\n' > 1
          let comment_t := trimChars comment
          (if comment_t.length > 0 then ind ++ comment_t ++ ['\n']
           else if multi_line then ['\n'] else []) ++ ind
      let nl := if i < total - 1 then ['\n'] else []
      match rewrite_attrs_go env ind total (i + 1) (some a) rest with
      | none => none
      | some tail => some (pre ++ a_str ++ nl ++ tail)

/-- `FmtVisitor::rewrite_attrs` (visitor.rs lines 290-326). -/
def rewrite_attrs (env : Env) (attrs : List Attribute) (indent : Nat) :
    Option (List Char) :=
  rewrite_attrs_go env (make_indent indent) attrs.length 0 none attrs

/-- `FmtVisitor::visit_attrs` (visitor.rs lines 271-288): returns the state
and `true` when the following item should be skipped. -/
def visit_attrs (env : Env) (v : FmtVisitor) (attrs : List Attribute) :
    FmtVisitor × Bool :=
  match attrs with
  | [] => (v, false)
  | first :: rest =>
    let v1 := format_missing_with_indent env v first.span.lo
    match rewrite_attrs env (first :: rest) v1.block_indent with
    | some s =>
      let v2 := push_str_span env v1 first.span s
      let last := (first :: rest).getLastD first
      ({ v2 with last_pos := last.span.hi }, false)
    | none => (v1, true)

/-- `visit_expr` (visitor.rs lines 29-38): flush the gap up to the
expression, rewrite the expression with the remaining width budget, write
the result at the expression's span, advance the cursor to its end.  The
visitor does not descend into the expression. -/
def visit_expr (env : Env) (v : FmtVisitor) (ex : Expr) : FmtVisitor :=
  let v1 := format_missing env v ex.span.lo
  let offset := cur_offset_span env v1 ex.span
  let new_str := env.rewrite_expr ex (env.max_width - offset) offset
  let v2 := push_str_span env v1 ex.span new_str
  { v2 with last_pos := ex.span.hi }

/-- Modelled from the spec: `visit_struct` (declared in the missing
`items.rs`) delegates to the struct-formatting rule with identifier,
visibility and definition and writes the result at the item's span (spec
section 4.3, struct item). -/
def visit_struct (env : Env) (v : FmtVisitor) (ident : String) (vis : Bool)
    (sp : Span) : FmtVisitor :=
  push_str_span env v sp (env.rewrite_struct ident vis sp)

mutual

/-- `visit_item` (visitor.rs lines 139-203).  The first match is the
attribute gate: modules are exempt ("Don't look at attributes for modules"),
every other kind runs `visit_attrs` and returns at once when it reports
suppression.  The second match dispatches on the item kind. -/
def visit_item (env : Env) (v : FmtVisitor) (it : Item) : FmtVisitor :=
  match it with
  | Item.mk ident attrs vis span node =>
    let gate : FmtVisitor × Bool :=
      match node with
      | ItemKind.itemMod _ _ => (v, false)
      | _ => visit_attrs env v attrs
    if gate.2 then gate.1
    else
      let v1 := gate.1
      match node with
      | ItemKind.itemUse vp =>
        let v2 := format_missing_with_indent env v1 span.lo
        (match vp with
         | ViewPath.viewPathList path path_list =>
           let block_indent := v2.block_indent
           let one_line_budget := env.max_width - block_indent
           let multi_line_budget := env.ideal_width - block_indent
           let new_str := env.rewrite_use_list block_indent one_line_budget
             multi_line_budget path path_list vis
           let v3 := { v2 with trace := v2.trace
             ++ [Event.calledRewriteUseList block_indent one_line_budget
                   multi_line_budget] }
           let v4 := push_str_span env v3 span new_str
           { v4 with last_pos := span.hi }
         | ViewPath.viewPathGlob => v2
         | ViewPath.viewPathSimple => v2)
      | ItemKind.itemImpl children =>
        let v2 := { v1 with block_indent := v1.block_indent + env.tab_spaces }
        let v3 := visit_items env v2 children
        { v3 with block_indent := v3.block_indent - env.tab_spaces }
      | ItemKind.itemMod inner items =>
        let v2 := { v1 with block_indent := v1.block_indent + env.tab_spaces }
        let v3 := visit_mod env v2 items span.lo inner.lo
        { v3 with block_indent := v3.block_indent - env.tab_spaces }
      | ItemKind.itemTrait children =>
        let v2 := { v1 with block_indent := v1.block_indent + env.tab_spaces }
        let v3 := visit_items env v2 children
        { v3 with block_indent := v3.block_indent - env.tab_spaces }
      | ItemKind.itemExternCrate =>
        let v2 := format_missing_with_indent env v1 span.lo
        let new_str := (snippet env span).1
        let v3 := push_str_span env v2 span new_str
        { v3 with last_pos := span.hi }
      | ItemKind.itemStruct =>
        let v2 := format_missing_with_indent env v1 span.lo
        let v3 := visit_struct env v2 ident vis span
        { v3 with last_pos := span.hi }
      | ItemKind.itemOther => v1

/-- `visit_mod` (visitor.rs lines 238-245): only inline modules — whose
inner span lies in the same file as the declaration — are walked. -/
def visit_mod (env : Env) (v : FmtVisitor) (items : List Item)
    (s_lo inner_lo : Nat) : FmtVisitor :=
  if env.file_name_of s_lo = env.file_name_of inner_lo then
    visit_items env v items
  else v

/-- `visit::walk_mod`: visit each item of the module in order. -/
def visit_items (env : Env) (v : FmtVisitor) : List Item → FmtVisitor
  | [] => v
  | it :: rest => visit_items env (visit_item env v it) rest

end

/-- `visit_stmt` (visitor.rs lines 40-58): an item declaration handles its
own missing span (annotations included), any other statement flushes the gap
first; then descend (`visit::walk_stmt`). -/
def visit_stmt (env : Env) (v : FmtVisitor) (s : Stmt) : FmtVisitor :=
  let skip_missing :=
    match s with
    | Stmt.stmtDeclItem _ _ => true
    | Stmt.stmtExpr _ _ => false
  let v1 := if skip_missing then v
    else format_missing_with_indent env v s.span.lo
  match s with
  | Stmt.stmtExpr _ e => visit_expr env v1 e
  | Stmt.stmtDeclItem _ it => visit_item env v1 it

def visit_stmts (env : Env) (v : FmtVisitor) : List Stmt → FmtVisitor
  | [] => v
  | s :: rest => visit_stmts env (visit_stmt env v s) rest

/-- `visit_block` (visitor.rs lines 60-86): flush the gap, write the opening
brace, bump the cursor past it, indent, visit the statements and the
trailing expression, outdent, flush up to the closing brace, write it,
advance to the block's end. -/
def visit_block (env : Env) (v : FmtVisitor) (b : Block) : FmtVisitor :=
  match b with
  | Block.mk span stmts e =>
    let v1 := format_missing env v span.lo
    let v2 := push_str_span env v1 span ['\x7b']
    let v3 := { v2 with last_pos := v2.last_pos + 1 }
    let v4 := { v3 with block_indent := v3.block_indent + env.tab_spaces }
    let v5 := visit_stmts env v4 stmts
    let v6 :=
      match e with
      | some ex => visit_expr env (format_missing_with_indent env v5 ex.span.lo) ex
      | none => v5
    let v7 := { v6 with block_indent := v6.block_indent - env.tab_spaces }
    let v8 := format_missing_with_indent env v7 (span.hi - 1)
    let v9 := push_str_span env v8 span ['\x7d']
    { v9 with last_pos := span.hi }

/-! ## Statement apparatus -/

/-- Visiting a sequence of expressions in order (each step is the general
per-node protocol of `visit_expr`). -/
def visit_exprs (env : Env) (v : FmtVisitor) : List Expr → FmtVisitor
  | [] => v
  | e :: rest => visit_exprs env (visit_expr env v e) rest

/-- The spans of the expression list appear in source order starting at the
cursor `p`: each span is well formed and starts no earlier than the previous
span's end. -/
def spansOrdered : Nat → List Expr → Bool
  | _, [] => true
  | p, e :: rest =>
    decide (p ≤ e.span.lo) && decide (e.span.lo ≤ e.span.hi)
      && spansOrdered e.span.hi rest

/-- Stated from the spec's words, for comparison with the trace the
traversal records: from cursor `p`, each node contributes its leading gap
(flushed exactly once, only when non-empty) immediately followed by the
write of its rendered text, and the cursor moves to the node's end. -/
def specGapNodeTrace : Nat → List Expr → List Event
  | _, [] => []
  | p, e :: rest =>
    (if p < e.span.lo then [Event.flushedGap p e.span.lo] else [])
      ++ Event.wroteSpan e.span.lo e.span.hi :: specGapNodeTrace e.span.hi rest

/-- The write cursor before the traversal and after each visited node. -/
def cursorTrail (env : Env) (v : FmtVisitor) : List Expr → List Nat
  | [] => [v.last_pos]
  | e :: rest => v.last_pos :: cursorTrail env (visit_expr env v e) rest

/-- The cursor after visiting the whole list from cursor `p`. -/
def lastHi : Nat → List Expr → Nat
  | p, [] => p
  | _, e :: rest => lastHi e.span.hi rest

/-- The bytes `[lo, hi)` of a source text. -/
def sourceSlice (src : List Char) (lo hi : Nat) : List Char :=
  (src.drop lo).take (hi - lo)

/-- The named file's accumulated buffer. -/
def bufferOf (v : FmtVisitor) (filename : String) : List Char :=
  (fsLookup v.changes filename).getD []

/-! ## C1 / C8: Position Index resolution -/

/-- C1 (code bug): on the Position Index of the claim's own scenario — two
files at `[0,10)` and `[10,25)` — resolving the span `[5,20)` does NOT
return the pieces `(5,10),(10,20)` split at the file boundary: the code's
`min(cur_file.1 - 1, end)` clips the first piece to `(5,9)`, so byte 9 is in
no piece and the union of the pieces is not `[5,20)`.  (The zero-length part
of the claim does hold: an empty span yields no pieces.) -/
theorem filespans_for_span_drops_a_byte :
    filespans_for_span [(0, 10), (10, 25)] 5 20 = some [(5, 9), (10, 20)]
    ∧ some [(5, 9), (10, 20)] ≠ some [(5, 10), (10, 20)]
    ∧ filespans_for_span [(0, 10), (10, 25)] 5 5 = some []
    ∧ filespans_for_span [(0, 10), (10, 25)] 13 13 = some [] := by
  refine ⟨by decide, by decide, by decide, by decide⟩

/-- C8: `filespans_for_span` returns a result exactly when `start ≤ end`;
a call with `start > end` violates the `assert!` at changes.rs line 58 and
aborts (modelled by `none`) instead of returning pieces. -/
theorem filespans_for_span_asserts_start_le_end
    (file_spans : List (Nat × Nat)) (start e : Nat) :
    (start > e → filespans_for_span file_spans start e = none)
    ∧ (start ≤ e → (filespans_for_span file_spans start e).isSome = true) := by
  constructor
  · intro h
    unfold filespans_for_span
    rw [if_neg (by omega)]
  · intro h
    unfold filespans_for_span
    rw [if_pos h]
    rfl

/-- Witness for C8 at concrete inputs. -/
theorem filespans_for_span_asserts_start_le_end_witness :
    filespans_for_span [(0, 10)] 7 3 = none
    ∧ (filespans_for_span [(0, 10)] 3 7).isSome = true :=
  ⟨(filespans_for_span_asserts_start_le_end [(0, 10)] 7 3).1 (by decide),
   (filespans_for_span_asserts_start_le_end [(0, 10)] 3 7).2 (by decide)⟩

/-! ## C4: newline rendering -/

/-- The code's Windows character loop agrees with the spec's description:
drop every pre-existing carriage return, then expand every newline to
`"\r\n"`. -/
theorem windows_newlines_eq_spec (text : List Char) :
    windows_newlines text = windows_newlines_spec text := by
  induction text with
  | nil => rfl
  | cons c rest ih =>
    by_cases hn : c = '\n'
    · subst hn
      simp [windows_newlines, windows_newlines_spec, List.filter, ih]
    · by_cases hr : c = '\r'
      · subst hr
        simp [windows_newlines, windows_newlines_spec, List.filter] at ih ⊢
        exact ih
      · simp [windows_newlines, windows_newlines_spec, List.filter, hn, hr] at ih ⊢
        exact ih

/-- No bare carriage return survives the Windows character loop. -/
theorem windows_newlines_noBareCR (text : List Char) :
    noBareCR (windows_newlines text) = true := by
  induction text with
  | nil => rfl
  | cons c rest ih =>
    by_cases hn : c = '\n'
    · subst hn
      simpa [windows_newlines, noBareCR] using ih
    · by_cases hr : c = '\r'
      · subst hr
        simpa [windows_newlines] using ih
      · rw [windows_newlines, if_neg hn, if_neg hr]
        cases rest with
        | nil => simp [noBareCR, windows_newlines, hn, hr]
        | cons d rest2 =>
          by_cases hd : d = '\n'
          · subst hd
            simp only [windows_newlines] at ih ⊢
            simpa [noBareCR, hn, hr] using ih
          · by_cases hdr : d = '\r'
            · subst hdr
              simp only [windows_newlines] at ih ⊢
              cases hcr : windows_newlines rest2 with
              | nil => simp [noBareCR, hn, hr]
              | cons x xs =>
                rw [hcr] at ih
                simpa [noBareCR, hn, hr, hcr] using ih
            · simp only [windows_newlines, if_neg hd, if_neg hdr] at ih ⊢
              simpa [noBareCR, hn, hr, hd, hdr] using ih

/-- C4: for every buffer text, the Unix style emits the text byte-identical;
the Windows style turns every `'\n'` into exactly one `"\r\n"`, drops every
pre-existing `'\r'`, keeps every other character (the spec-side translation
`windows_newlines_spec`), and its output has no `"\r\r\n"` and no bare
`'\r'`. -/
theorem write_system_newlines_correct (text : List Char) :
    write_system_newlines NewlineStyle.Unix text = text
    ∧ write_system_newlines NewlineStyle.Windows text
        = windows_newlines_spec text
    ∧ noBareCR (write_system_newlines NewlineStyle.Windows text) = true :=
  ⟨rfl, windows_newlines_eq_spec text, windows_newlines_noBareCR text⟩

/-! ## C5 / C7: finalization to the filesystem -/

lemma fileCreateWrite_ok_ops (w : World) (name : String) (content : List Char)
    (w1 : World) (h : fileCreateWrite w name content = Except.ok w1) :
    w1.fs = fsInsert w.fs name content
    ∧ w1.ops = w.ops ++ [FsOp.createWrite name content] := by
  unfold fileCreateWrite at h
  split at h
  · cases h
  · cases h
    exact ⟨rfl, rfl⟩

lemma fsRename_ok_ops (w : World) (src dst : String) (w1 : World)
    (h : fsRename w src dst = Except.ok w1) :
    w1.ops = w.ops ++ [FsOp.rename src dst] := by
  unfold fsRename at h
  split at h
  · cases h
  · split at h
    · cases h
    · cases h
      rfl

/-- C5: `write_file` in Overwrite mode.  (1) Whenever the call returns
successfully, the filesystem operations it completed are, in order: create
and write `N.tmp`, rename `N` to `N.bk`, rename `N.tmp` to `N` (and the
in-memory result is `None`).  (2) When creating or writing the temporary
file fails, the error is propagated and the world — the original file
included — is exactly as before the call: no rename has happened.  (3) When
the first rename fails after the temporary file was written, the error is
propagated and the world is left exactly as the temp-file write left it —
no rollback of completed operations is attempted.  (4) When the second
rename fails after both the temporary write and the first rename completed,
the error is propagated and the world returned is exactly the one the first
rename produced: the completed rename of `N` to `N.bk` is recorded in its
operation trace and is not rolled back. -/
theorem write_file_overwrite_dance (style : NewlineStyle) (w : World)
    (filename : String) (text : List Char) :
    (∀ w3 r, write_file style w filename text WriteMode.Overwrite
        = (w3, Except.ok r) →
      r = none
      ∧ w3.ops = w.ops
          ++ [FsOp.createWrite (filename ++ ".tmp")
                (write_system_newlines style text),
              FsOp.rename filename (filename ++ ".bk"),
              FsOp.rename (filename ++ ".tmp") filename])
    ∧ ((filename ++ ".tmp") ∈ w.failCreates →
        write_file style w filename text WriteMode.Overwrite
          = (w, Except.error ()))
    ∧ (∀ w1, fileCreateWrite w (filename ++ ".tmp")
          (write_system_newlines style text) = Except.ok w1 →
        fsRename w1 filename (filename ++ ".bk") = Except.error () →
        write_file style w filename text WriteMode.Overwrite
          = (w1, Except.error ()))
    ∧ (∀ w1 w2, fileCreateWrite w (filename ++ ".tmp")
          (write_system_newlines style text) = Except.ok w1 →
        fsRename w1 filename (filename ++ ".bk") = Except.ok w2 →
        fsRename w2 (filename ++ ".tmp") filename = Except.error () →
        write_file style w filename text WriteMode.Overwrite
            = (w2, Except.error ())
          ∧ w2.ops = w.ops
              ++ [FsOp.createWrite (filename ++ ".tmp")
                    (write_system_newlines style text),
                  FsOp.rename filename (filename ++ ".bk")]) := by
  refine ⟨?_, ?_, ?_, ?_⟩
  · intro w3 r h
    simp only [write_file] at h
    rcases hc : fileCreateWrite w (filename ++ ".tmp")
        (write_system_newlines style text) with _ | w1
    · simp only [hc] at h
      cases h
    · simp only [hc] at h
      rcases hr1 : fsRename w1 filename (filename ++ ".bk") with _ | w2
      · simp only [hr1] at h
        cases h
      · simp only [hr1] at h
        rcases hr2 : fsRename w2 (filename ++ ".tmp") filename with _ | w3x
        · simp only [hr2] at h
          cases h
        · simp only [hr2] at h
          cases h
          refine ⟨rfl, ?_⟩
          rw [fsRename_ok_ops w2 _ _ _ hr2, fsRename_ok_ops w1 _ _ _ hr1,
            (fileCreateWrite_ok_ops w _ _ _ hc).2]
          simp
  · intro hmem
    simp only [write_file]
    have hc : fileCreateWrite w (filename ++ ".tmp")
        (write_system_newlines style text) = Except.error () := by
      unfold fileCreateWrite
      rw [if_pos hmem]
    simp only [hc]
  · intro w1 hc hr
    simp only [write_file]
    simp only [hc, hr]
  · intro w1 w2 hc h1 h2
    refine ⟨by simp only [write_file, hc, h1, h2], ?_⟩
    rw [fsRename_ok_ops w1 _ _ _ h1, (fileCreateWrite_ok_ops w _ _ _ hc).2]
    simp

/-- A world in which the second rename of the Overwrite dance is the one
simulated failure: the original file `a` exists, creating `a.tmp` succeeds,
renaming `a` to `a.bk` succeeds, renaming `a.tmp` to `a` fails. -/
def overwriteDemoWorld : World :=
  { fs := [("a", ['x'])], stdout := [], failCreates := [],
    failRenames := [("a.tmp", "a")], ops := [] }

/-- `overwriteDemoWorld` after its temp-file write. -/
def overwriteDemoTmpWritten : World :=
  { fs := [("a", ['x']), ("a.tmp", ['y'])], stdout := [], failCreates := [],
    failRenames := [("a.tmp", "a")], ops := [FsOp.createWrite "a.tmp" ['y']] }

/-- `overwriteDemoWorld` after its temp-file write and its first rename:
the original `a` now lives only at `a.bk`. -/
def overwriteDemoRenamed : World :=
  { fs := [("a.tmp", ['y']), ("a.bk", ['x'])], stdout := [], failCreates := [],
    failRenames := [("a.tmp", "a")],
    ops := [FsOp.createWrite "a.tmp" ['y'], FsOp.rename "a" "a.bk"] }

/-- Witness for C5 exercising the second-rename-failure conjunct at a
concrete world: the call errors, and the returned world is exactly the one
the first rename left — the completed rename of `a` to `a.bk` stays in the
operation trace with no rollback. -/
theorem write_file_overwrite_dance_witness :
    write_file NewlineStyle.Unix overwriteDemoWorld "a" ['y']
        WriteMode.Overwrite
      = (overwriteDemoRenamed, Except.error ())
    ∧ overwriteDemoRenamed.ops
      = overwriteDemoWorld.ops
        ++ [FsOp.createWrite "a.tmp" ['y'], FsOp.rename "a" "a.bk"] :=
  (write_file_overwrite_dance NewlineStyle.Unix overwriteDemoWorld "a"
      ['y']).2.2.2 overwriteDemoTmpWritten overwriteDemoRenamed rfl rfl rfl

lemma write_file_return (style : NewlineStyle) (w : World) (n : String)
    (t : List Char) :
    write_file style w n t WriteMode.Return
      = (w, Except.ok (some (write_system_newlines style t))) := rfl

lemma write_file_ok_none (style : NewlineStyle) (w : World) (n : String)
    (t : List Char) (mode : WriteMode) (w1 : World) (r : Option (List Char))
    (hm : mode ≠ WriteMode.Return)
    (h : write_file style w n t mode = (w1, Except.ok r)) : r = none := by
  cases mode with
  | Overwrite =>
    simp only [write_file] at h
    rcases hc : fileCreateWrite w (n ++ ".tmp") (write_system_newlines style t)
        with _ | wa
    · simp only [hc] at h
      cases h
    · simp only [hc] at h
      rcases hr1 : fsRename wa n (n ++ ".bk") with _ | wb
      · simp only [hr1] at h
        cases h
      · simp only [hr1] at h
        rcases hr2 : fsRename wb (n ++ ".tmp") n with _ | wc
        · simp only [hr2] at h
          cases h
        · simp only [hr2] at h
          cases h
          rfl
  | NewFile extn =>
    simp only [write_file] at h
    rcases hc : fileCreateWrite w (n ++ "." ++ extn)
        (write_system_newlines style t) with _ | wa
    · simp only [hc] at h
      cases h
    · simp only [hc] at h
      cases h
      rfl
  | Display =>
    simp only [write_file] at h
    cases h
    rfl
  | Return => exact absurd rfl hm

/-- C7: `write_all_files` calls `write_file` for each file of the set in
order and aggregates the `Some` results into the name-to-text map: in Return
mode the map holds every file's rendered text, in every other mode a
successful run yields an empty map; the first per-file error aborts the loop
and propagates, the effects of the files already processed are kept and the
remaining files are not touched. -/
theorem write_all_files_aggregation (style : NewlineStyle) (w : World)
    (files : List (String × List Char)) :
    write_all_files style w files WriteMode.Return
      = (w, Except.ok (files.map
          (fun p => (p.1, write_system_newlines style p.2))))
    ∧ (∀ mode w2 m, mode ≠ WriteMode.Return →
        write_all_files style w files mode = (w2, Except.ok m) → m = [])
    ∧ (∀ mode n t rest w1 er,
        write_file style w n t mode = (w1, Except.error er) →
        write_all_files style w ((n, t) :: rest) mode = (w1, Except.error er))
    ∧ (∀ mode files2 w1 m1 n t w2 er,
        write_all_files style w files mode = (w1, Except.ok m1) →
        write_file style w1 n t mode = (w2, Except.error er) →
        write_all_files style w (files ++ (n, t) :: files2) mode
          = (w2, Except.error er)) := by
  refine ⟨?_, ?_, ?_, ?_⟩
  · induction files generalizing w with
    | nil => rfl
    | cons p rest ih =>
      rcases p with ⟨n, t⟩
      simp only [write_all_files, write_file_return, ih w, List.map]
  · induction files generalizing w with
    | nil =>
      intro mode w2 m hm h
      simp only [write_all_files] at h
      cases h
      rfl
    | cons p rest ih =>
      rcases p with ⟨n, t⟩
      intro mode w2 m hm h
      simp only [write_all_files] at h
      rcases hwf : write_file style w n t mode with ⟨wa, ra⟩
      rcases ra with er | one
      · simp only [hwf] at h
        cases h
      · simp only [hwf] at h
        rcases hall : write_all_files style wa rest mode with ⟨wb, rb⟩
        rcases rb with er | mb
        · simp only [hall] at h
          cases h
        · simp only [hall] at h
          have hone : one = none := write_file_ok_none style w n t mode wa one hm hwf
          subst hone
          cases h
          exact ih wa mode _ _ hm hall
  · intro mode n t rest w1 er h
    simp only [write_all_files, h]
  · induction files generalizing w with
    | nil =>
      intro mode files2 w1 m1 n t w2 er hall hwf
      simp only [write_all_files] at hall
      cases hall
      simp only [List.nil_append, write_all_files, hwf]
    | cons p rest ih =>
      rcases p with ⟨f, ft⟩
      intro mode files2 w1 m1 n t w2 er hall hwf
      simp only [write_all_files] at hall
      rcases hwfa : write_file style w f ft mode with ⟨wa, ra⟩
      rcases ra with era | one
      · simp only [hwfa] at hall
        cases hall
      · simp only [hwfa] at hall
        rcases hrest : write_all_files style wa rest mode with ⟨wb, rb⟩
        rcases rb with erb | mb
        · simp only [hrest] at hall
          cases hall
        · simp only [hrest] at hall
          have hwb : wb = w1 := congrArg Prod.fst hall
          subst hwb
          have hstep := ih wa mode files2 wb mb n t w2 er hrest hwf
          simp only [List.cons_append, write_all_files, hwfa,
            List.append_eq] at hstep ⊢
          rw [hstep]

/-! ## C9: snippet fallback -/

/-- C9: when the codemap lookup fails for a span, `snippet` logs that span's
position range and returns the empty string instead of propagating the
failure; when the lookup succeeds, `snippet` returns exactly the looked-up
text (and logs nothing). -/
theorem snippet_error_fallback (env : Env) (sp : Span) :
    (env.span_to_snippet sp.lo sp.hi = none → snippet env sp = ([], some sp))
    ∧ (∀ s, env.span_to_snippet sp.lo sp.hi = some s →
        snippet env sp = (s, none)) := by
  constructor
  · intro h
    unfold snippet
    rw [h]
  · intro s h
    unfold snippet
    rw [h]

/-- Witness for C9: a codemap that resolves exactly the spans inside a
two-character source. -/
theorem snippet_error_fallback_witness :
    snippet
      { max_width := 100, ideal_width := 80, tab_spaces := 4
        file_name_of := fun _ => "a.rs"
        span_to_snippet := fun lo hi =>
          if hi ≤ 2 ∧ lo ≤ hi then some (sourceSlice ['a', 'b'] lo hi) else none
        rewrite_expr := fun _ _ _ => []
        rewrite_use_list := fun _ _ _ _ _ _ => []
        rewrite_struct := fun _ _ _ => []
        gap_render := fun _ _ _ => [] } ⟨7, 3⟩ = ([], some ⟨7, 3⟩)
    ∧ snippet
      { max_width := 100, ideal_width := 80, tab_spaces := 4
        file_name_of := fun _ => "a.rs"
        span_to_snippet := fun lo hi =>
          if hi ≤ 2 ∧ lo ≤ hi then some (sourceSlice ['a', 'b'] lo hi) else none
        rewrite_expr := fun _ _ _ => []
        rewrite_use_list := fun _ _ _ _ _ _ => []
        rewrite_struct := fun _ _ _ => []
        gap_render := fun _ _ _ => [] } ⟨0, 2⟩ = (['a', 'b'], none) :=
  ⟨(snippet_error_fallback _ ⟨7, 3⟩).1 (by decide),
   (snippet_error_fallback _ ⟨0, 2⟩).2 ['a', 'b'] (by decide)⟩

/-! ## Helper lemmas on buffers and state -/

lemma fsLookup_fsInsert (fs : List (String × List Char)) (n m : String)
    (c : List Char) :
    fsLookup (fsInsert fs n c) m = if m = n then some c else fsLookup fs m := by
  induction fs with
  | nil =>
    simp only [fsInsert, fsLookup]
    by_cases h : m = n
    · subst h
      simp
    · rw [if_neg (fun hh : n = m => h hh.symm), if_neg h]
  | cons p rest ih =>
    rcases p with ⟨k, c0⟩
    simp only [fsInsert]
    by_cases hk : k = n
    · rw [if_pos hk]
      subst hk
      simp only [fsLookup]
      by_cases hm : k = m
      · subst hm
        simp
      · rw [if_neg hm, if_neg (fun hh : m = k => hm hh.symm), if_neg hm]
    · rw [if_neg hk]
      simp only [fsLookup]
      by_cases hm : k = m
      · subst hm
        simp [hk]
      · rw [if_neg hm, ih, if_neg hm]

lemma fsLookup_fsInsert_isSome (fs : List (String × List Char)) (n m : String)
    (c : List Char) (h : (fsLookup fs m).isSome = true) :
    (fsLookup (fsInsert fs n c) m).isSome = true := by
  rw [fsLookup_fsInsert]
  split_ifs <;> simp_all

lemma push_str_trace (v : FmtVisitor) (f : String) (t : List Char) :
    (push_str v f t).trace = v.trace := by
  unfold push_str
  cases fsLookup v.changes f <;> rfl

lemma push_str_last_pos (v : FmtVisitor) (f : String) (t : List Char) :
    (push_str v f t).last_pos = v.last_pos := by
  unfold push_str
  cases fsLookup v.changes f <;> rfl

lemma push_str_block_indent (v : FmtVisitor) (f : String) (t : List Char) :
    (push_str v f t).block_indent = v.block_indent := by
  unfold push_str
  cases fsLookup v.changes f <;> rfl

lemma push_str_isSome (v : FmtVisitor) (f : String) (t : List Char) (m : String)
    (h : (fsLookup v.changes m).isSome = true) :
    (fsLookup (push_str v f t).changes m).isSome = true := by
  unfold push_str
  rcases hf : fsLookup v.changes f with _ | buf
  · exact h
  · exact fsLookup_fsInsert_isSome _ _ _ _ h

lemma bufferOf_push_str_same (v : FmtVisitor) (f : String) (t : List Char)
    (h : (fsLookup v.changes f).isSome = true) :
    bufferOf (push_str v f t) f = bufferOf v f ++ t := by
  unfold push_str
  rcases hf : fsLookup v.changes f with _ | buf
  · rw [hf] at h
    cases h
  · simp [bufferOf, fsLookup_fsInsert, hf]

/-- `push_str` reads and writes only the `changes` field, so a visitor that
differs from `v` in other fields (trace instrumentation) appends the same
way. -/
lemma bufferOf_push_str_congr (v vb : FmtVisitor) (f : String) (t : List Char)
    (hch : vb.changes = v.changes)
    (h : (fsLookup v.changes f).isSome = true) :
    bufferOf (push_str vb f t) f = bufferOf v f ++ t := by
  unfold push_str
  rw [hch]
  rcases hf : fsLookup v.changes f with _ | buf
  · rw [hf] at h
    cases h
  · simp [bufferOf, fsLookup_fsInsert, hf, hch]

lemma push_str_span_trace (env : Env) (v : FmtVisitor) (sp : Span)
    (t : List Char) :
    (push_str_span env v sp t).trace
      = v.trace ++ [Event.wroteSpan sp.lo sp.hi] := by
  simp only [push_str_span, push_str_trace]

lemma push_str_span_last_pos (env : Env) (v : FmtVisitor) (sp : Span)
    (t : List Char) :
    (push_str_span env v sp t).last_pos = v.last_pos := by
  simp only [push_str_span, push_str_last_pos]

lemma push_str_span_block_indent (env : Env) (v : FmtVisitor) (sp : Span)
    (t : List Char) :
    (push_str_span env v sp t).block_indent = v.block_indent := by
  simp only [push_str_span, push_str_block_indent]

lemma format_missing_trace (env : Env) (v : FmtVisitor) (e : Nat) :
    (format_missing env v e).trace
      = v.trace
        ++ (if v.last_pos < e then [Event.flushedGap v.last_pos e] else []) := by
  simp only [format_missing]
  split
  · simp [push_str_trace]
  · simp

lemma format_missing_last_pos (env : Env) (v : FmtVisitor) (e : Nat) :
    (format_missing env v e).last_pos = max v.last_pos e := by
  simp only [format_missing]
  split
  · have h : max v.last_pos e = e := by omega
    rw [h]
  · have h : max v.last_pos e = v.last_pos := by omega
    simp [h]

lemma format_missing_block_indent (env : Env) (v : FmtVisitor) (e : Nat) :
    (format_missing env v e).block_indent = v.block_indent := by
  simp only [format_missing]
  split
  · simp [push_str_block_indent]
  · rfl

lemma format_missing_with_indent_last_pos (env : Env) (v : FmtVisitor)
    (e : Nat) :
    (format_missing_with_indent env v e).last_pos = max v.last_pos e := by
  simp only [format_missing_with_indent]
  split
  · have h : max v.last_pos e = e := by omega
    rw [h]
  · have h : max v.last_pos e = v.last_pos := by omega
    simp [h]

lemma format_missing_with_indent_block_indent (env : Env) (v : FmtVisitor)
    (e : Nat) :
    (format_missing_with_indent env v e).block_indent = v.block_indent := by
  simp only [format_missing_with_indent]
  split
  · simp [push_str_block_indent]
  · rfl

lemma format_missing_with_indent_isSome (env : Env) (v : FmtVisitor) (e : Nat)
    (m : String) (h : (fsLookup v.changes m).isSome = true) :
    (fsLookup (format_missing_with_indent env v e).changes m).isSome = true := by
  simp only [format_missing_with_indent]
  split
  · exact push_str_isSome v _ _ m h
  · exact h

lemma sourceSlice_empty (src : List Char) (a : Nat) :
    sourceSlice src a a = [] := by
  simp [sourceSlice]

lemma sourceSlice_split (src : List Char) (a b c : Nat) (h1 : a ≤ b)
    (h2 : b ≤ c) :
    sourceSlice src a c = sourceSlice src a b ++ sourceSlice src b c := by
  unfold sourceSlice
  have h3 : c - a = (b - a) + (c - b) := by omega
  rw [h3, List.take_add]
  congr 1
  rw [List.drop_drop]
  congr 2
  omega

/-- A verbatim flush appends exactly the source bytes of the gap to the
owning file's buffer (when the codemap resolves snippets from `src`). -/
lemma bufferOf_format_missing (env : Env) (src : List Char) (v : FmtVisitor)
    (e : Nat) (f : String)
    (hsnip : ∀ lo hi, env.span_to_snippet lo hi = some (sourceSlice src lo hi))
    (hf : f = env.file_name_of v.last_pos)
    (hle : v.last_pos ≤ e)
    (hbuf : (fsLookup v.changes f).isSome = true) :
    bufferOf (format_missing env v e) f
      = bufferOf v f ++ sourceSlice src v.last_pos e := by
  simp only [format_missing]
  by_cases h : v.last_pos < e
  · rw [if_pos h]
    have hsn : (snippet env ⟨v.last_pos, e⟩).1
        = sourceSlice src v.last_pos e := by
      unfold snippet
      rw [hsnip]
    simp only [bufferOf] at *
    rw [show span_to_filename env ⟨v.last_pos, e⟩ = f from (by rw [hf]; rfl)]
    rw [hsn]
    exact bufferOf_push_str_same v f _ hbuf
  · have he : v.last_pos = e := by omega
    rw [if_neg h, he, sourceSlice_empty, List.append_nil]

/-! ## C2: gap coverage and cursor monotonicity of the traversal -/

lemma visit_expr_trace (env : Env) (v : FmtVisitor) (ex : Expr) :
    (visit_expr env v ex).trace
      = v.trace ++ ((if v.last_pos < ex.span.lo
            then [Event.flushedGap v.last_pos ex.span.lo] else [])
          ++ [Event.wroteSpan ex.span.lo ex.span.hi]) := by
  simp only [visit_expr, push_str_span_trace, format_missing_trace]
  simp

lemma visit_expr_last_pos (env : Env) (v : FmtVisitor) (ex : Expr) :
    (visit_expr env v ex).last_pos = ex.span.hi := rfl

lemma visit_exprs_trace (env : Env) :
    ∀ (es : List Expr) (v : FmtVisitor),
      (visit_exprs env v es).trace
        = v.trace ++ specGapNodeTrace v.last_pos es := by
  intro es
  induction es with
  | nil =>
    intro v
    simp [visit_exprs, specGapNodeTrace]
  | cons e rest ih =>
    intro v
    rw [visit_exprs, ih, visit_expr_trace, visit_expr_last_pos,
      specGapNodeTrace]
    simp

lemma cursorTrail_head (env : Env) (v : FmtVisitor) (es : List Expr) :
    (cursorTrail env v es).head? = some v.last_pos := by
  cases es <;> rfl

lemma cursorTrail_chain (env : Env) :
    ∀ (es : List Expr) (v : FmtVisitor),
      spansOrdered v.last_pos es = true →
      List.Chain' (· ≤ ·) (cursorTrail env v es) := by
  intro es
  induction es with
  | nil =>
    intro v _
    simp [cursorTrail]
  | cons e rest ih =>
    intro v h
    rw [spansOrdered] at h
    simp only [Bool.and_eq_true, decide_eq_true_eq] at h
    obtain ⟨⟨h1, h2⟩, h3⟩ := h
    rw [cursorTrail, List.chain'_cons']
    constructor
    · intro b hb
      rw [cursorTrail_head] at hb
      cases hb
      rw [visit_expr_last_pos]
      omega
    · exact ih (visit_expr env v e) (by rw [visit_expr_last_pos]; exact h3)

lemma spansOrdered_le_lo :
    ∀ (xs : List Expr) (p : Nat) (y : Expr) (ys : List Expr),
      spansOrdered p (xs ++ y :: ys) = true →
      p ≤ y.span.lo ∧ y.span.lo ≤ y.span.hi := by
  intro xs
  induction xs with
  | nil =>
    intro p y ys h
    rw [List.nil_append, spansOrdered] at h
    simp only [Bool.and_eq_true, decide_eq_true_eq] at h
    exact h.1
  | cons x xs ih =>
    intro p y ys h
    rw [List.cons_append, spansOrdered] at h
    simp only [Bool.and_eq_true, decide_eq_true_eq] at h
    obtain ⟨⟨h1, h2⟩, h3⟩ := h
    have h4 := ih x.span.hi y ys h3
    exact ⟨by omega, h4.2⟩

lemma specGapNodeTrace_gap_mem :
    ∀ (es : List Expr) (p a b : Nat),
      spansOrdered p es = true →
      Event.flushedGap a b ∈ specGapNodeTrace p es → p ≤ a := by
  intro es
  induction es with
  | nil =>
    intro p a b _ hm
    simp [specGapNodeTrace] at hm
  | cons e rest ih =>
    intro p a b h hm
    rw [spansOrdered] at h
    simp only [Bool.and_eq_true, decide_eq_true_eq] at h
    obtain ⟨⟨h1, h2⟩, h3⟩ := h
    rw [specGapNodeTrace] at hm
    rcases List.mem_append.mp hm with hm1 | hm2
    · split at hm1
      · rcases List.mem_singleton.mp hm1 with heq
        cases heq
        exact le_refl _
      · simp at hm1
    · rcases List.mem_cons.mp hm2 with hm3 | hm4
      · cases hm3
      · have := ih e.span.hi a b h3 hm4
        omega

lemma specGapNodeTrace_count_one :
    ∀ (es1 : List Expr) (p : Nat) (e1 e2 : Expr) (es2 : List Expr),
      spansOrdered p (es1 ++ e1 :: e2 :: es2) = true →
      e1.span.hi < e2.span.lo →
      (specGapNodeTrace p (es1 ++ e1 :: e2 :: es2)).count
        (Event.flushedGap e1.span.hi e2.span.lo) = 1 := by
  intro es1
  induction es1 with
  | nil =>
    intro p e1 e2 es2 h hgap
    rw [List.nil_append] at h ⊢
    rw [spansOrdered] at h
    simp only [Bool.and_eq_true, decide_eq_true_eq] at h
    obtain ⟨⟨h1, h2⟩, h3⟩ := h
    rw [spansOrdered] at h3
    simp only [Bool.and_eq_true, decide_eq_true_eq] at h3
    obtain ⟨⟨h4, h5⟩, h6⟩ := h3
    rw [specGapNodeTrace, specGapNodeTrace]
    have hT : (Event.flushedGap e1.span.hi e2.span.lo)
        ∉ specGapNodeTrace e2.span.hi es2 := by
      intro hm
      have := specGapNodeTrace_gap_mem es2 e2.span.hi e1.span.hi e2.span.lo
        h6 hm
      omega
    rw [List.count_append, List.count_cons, List.count_append, List.count_cons,
      List.count_eq_zero.mpr hT]
    have hne1 : (if p < e1.span.lo
          then [Event.flushedGap p e1.span.lo] else []).count
        (Event.flushedGap e1.span.hi e2.span.lo) = 0 := by
      split
      · rw [List.count_eq_zero]
        intro hm
        rcases List.mem_singleton.mp hm with heq
        injection heq with ha hb
        omega
      · rfl
    have hone : (if e1.span.hi < e2.span.lo
          then [Event.flushedGap e1.span.hi e2.span.lo] else []).count
        (Event.flushedGap e1.span.hi e2.span.lo) = 1 := by
      rw [if_pos hgap]
      simp
    rw [hne1, hone]
    simp
  | cons e0 rest ih =>
    intro p e1 e2 es2 h hgap
    rw [List.cons_append] at h ⊢
    have h0 := h
    rw [spansOrdered] at h0
    simp only [Bool.and_eq_true, decide_eq_true_eq] at h0
    obtain ⟨⟨h1, h2⟩, h3⟩ := h0
    rw [specGapNodeTrace, List.count_append, List.count_cons]
    have h4 := spansOrdered_le_lo rest e0.span.hi e1 (e2 :: es2) h3
    have hhead : (if p < e0.span.lo
          then [Event.flushedGap p e0.span.lo] else []).count
        (Event.flushedGap e1.span.hi e2.span.lo) = 0 := by
      split
      · rw [List.count_eq_zero]
        intro hm
        rcases List.mem_singleton.mp hm with heq
        injection heq with ha hb
        omega
      · rfl
    rw [hhead, ih e0.span.hi e1 e2 es2 h3 hgap]
    simp

/-- C2: for any traversal of nodes whose spans appear in source order
starting at the write cursor, the recorded effect trace is exactly the
spec-side trace `specGapNodeTrace`, in which each inter-node gap `[b, c)`
(with `b < c`) is flushed as one event placed immediately before the write
of the following node's span; the write cursor is monotonically
non-decreasing through the whole traversal (`cursorTrail` forms a `≤`
chain); and for every two consecutively visited spans whose gap is
non-empty, that gap's flush event occurs exactly once in the trace. -/
theorem traversal_gap_coverage (env : Env) (v : FmtVisitor)
    (es1 es2 : List Expr) (e1 e2 : Expr)
    (hord : spansOrdered v.last_pos (es1 ++ e1 :: e2 :: es2) = true)
    (hgap : e1.span.hi < e2.span.lo) :
    (visit_exprs env v (es1 ++ e1 :: e2 :: es2)).trace
      = v.trace ++ specGapNodeTrace v.last_pos (es1 ++ e1 :: e2 :: es2)
    ∧ List.Chain' (· ≤ ·) (cursorTrail env v (es1 ++ e1 :: e2 :: es2))
    ∧ (specGapNodeTrace v.last_pos (es1 ++ e1 :: e2 :: es2)).count
        (Event.flushedGap e1.span.hi e2.span.lo) = 1 :=
  ⟨visit_exprs_trace env _ v,
   cursorTrail_chain env _ v hord,
   specGapNodeTrace_count_one es1 v.last_pos e1 e2 es2 hord hgap⟩

/-! ## C10: empty attribute list is a no-op -/

/-- C10: `visit_attrs` on an empty attribute list reports "not suppressed"
and returns the visitor state unchanged — no gap flushed, no buffer touched,
cursor and indent level as before. -/
theorem visit_attrs_empty_noop (env : Env) (v : FmtVisitor) :
    visit_attrs env v [] = (v, false) :=
  rfl

/-! ## Concrete demonstration inputs for witnesses and counterexamples -/

def demoSrc : List Char := "abcdefghijklmnopqrstuvwxyz".data

def demoEnv : Env :=
  { max_width := 100, ideal_width := 80, tab_spaces := 4
    file_name_of := fun _ => "a.rs"
    span_to_snippet := fun lo hi => some (sourceSlice demoSrc lo hi)
    rewrite_expr := fun _ _ _ => ['E']
    rewrite_use_list := fun _ _ _ _ _ _ => ['U']
    rewrite_struct := fun _ _ _ => ['S']
    gap_render := fun _ _ _ => ['G'] }

def demoVisitor : FmtVisitor :=
  { changes := [("a.rs", [])], last_pos := 0, block_indent := 0,
    trace := [], panicked := false }

/-- An extern-crate item at `[18, 24)` carrying the skip marker on its
attribute at `[2, 17)`. -/
def skipItemDemo : Item :=
  Item.mk "x" [⟨⟨2, 17⟩, MetaItem.metaWord SKIP_ANNOTATION⟩] false ⟨18, 24⟩
    ItemKind.itemExternCrate

/-- A module item carrying the skip marker whose body holds one extern-crate
item at `[5, 15)`, in the same file as its declaration. -/
def modItemDemo : Item :=
  Item.mk "m" [⟨⟨0, 1⟩, MetaItem.metaWord SKIP_ANNOTATION⟩] false ⟨2, 20⟩
    (ItemKind.itemMod ⟨4, 19⟩
      [Item.mk "c" [] false ⟨5, 15⟩ ItemKind.itemExternCrate])

/-- A list-form use declaration at `[2, 10)` with no attributes. -/
def useItemDemo : Item :=
  Item.mk "u" [] false ⟨2, 10⟩
    (ItemKind.itemUse (ViewPath.viewPathList "p" ["a", "b"]))

/-- Witness for C2: two expressions at `[1,3)` and `[5,7)` visited from
cursor 0. -/
theorem traversal_gap_coverage_witness :
    (visit_exprs demoEnv demoVisitor [Expr.mk ⟨1, 3⟩, Expr.mk ⟨5, 7⟩]).trace
      = demoVisitor.trace
        ++ specGapNodeTrace demoVisitor.last_pos
             [Expr.mk ⟨1, 3⟩, Expr.mk ⟨5, 7⟩]
    ∧ List.Chain' (· ≤ ·)
        (cursorTrail demoEnv demoVisitor [Expr.mk ⟨1, 3⟩, Expr.mk ⟨5, 7⟩])
    ∧ (specGapNodeTrace demoVisitor.last_pos
          [Expr.mk ⟨1, 3⟩, Expr.mk ⟨5, 7⟩]).count (Event.flushedGap 3 5) = 1 :=
  traversal_gap_coverage demoEnv demoVisitor [] [] (Expr.mk ⟨1, 3⟩)
    (Expr.mk ⟨5, 7⟩) (by decide) (by decide)

/-! ## C3: the skip marker suppresses the following item -/

lemma rewrite_attrs_go_none_of_skip (env : Env) (ind : List Char)
    (total : Nat) :
    ∀ (attrs : List Attribute) (i : Nat) (prev : Option Attribute),
      containsSkip attrs = true →
      rewrite_attrs_go env ind total i prev attrs = none := by
  intro attrs
  induction attrs with
  | nil =>
    intro i prev h
    simp [containsSkip] at h
  | cons a rest ih =>
    intro i prev h
    rw [rewrite_attrs_go]
    by_cases hs : is_skip a.value
    · rw [if_pos hs]
    · rw [if_neg hs]
      have hrest : containsSkip rest = true := by
        simp only [containsSkip, List.any_cons, Bool.or_eq_true] at h
        rcases h with h | h
        · exact absurd h hs
        · exact h
      rw [ih (i + 1) (some a) hrest]

lemma visit_attrs_skip (env : Env) (v : FmtVisitor) (first : Attribute)
    (rest : List Attribute) (h : containsSkip (first :: rest) = true) :
    visit_attrs env v (first :: rest)
      = (format_missing_with_indent env v first.span.lo, true) := by
  rw [visit_attrs]
  rw [rewrite_attrs, rewrite_attrs_go_none_of_skip env _ _ _ _ _ h]

lemma visit_item_skip_aborts (env : Env) (v : FmtVisitor) (it : Item)
    (hmod : isItemMod it.node = false)
    (hskip : (visit_attrs env v it.attrs).2 = true) :
    visit_item env v it = (visit_attrs env v it.attrs).1 := by
  rcases it with ⟨ident, attrs, vis, span, node⟩
  simp only [Item.attrs] at hskip ⊢
  cases node with
  | itemMod inner items => simp [isItemMod, Item.node] at hmod
  | itemUse vp => simp only [visit_item, hskip, if_true]
  | itemImpl children => simp only [visit_item, hskip, if_true]
  | itemTrait children => simp only [visit_item, hskip, if_true]
  | itemExternCrate => simp only [visit_item, hskip, if_true]
  | itemStruct => simp only [visit_item, hskip, if_true]
  | itemOther => simp only [visit_item, hskip, if_true]

/-- C3 (amended to non-module items): for every non-module item whose
attribute list contains the skip marker, `visit_attrs` reports "suppressed"
(`true`), `visit_item` aborts at once — the only state change is the flush
of the gap up to the first attribute, so no rewritten text is emitted for
the item and the cursor rests at the first attribute's start — and a later
verbatim flush past the item's end reproduces the item's original bytes,
its leading attribute list included, byte for byte (the flushed text is
`sourceSlice src first.lo it.hi ++ sourceSlice src it.hi e`). -/
theorem skip_attr_item_reproduced (env : Env) (src : List Char)
    (v : FmtVisitor) (it : Item) (first : Attribute) (rest : List Attribute)
    (e : Nat)
    (hattrs : it.attrs = first :: rest)
    (hmod : isItemMod it.node = false)
    (hskip : containsSkip it.attrs = true)
    (hcur : v.last_pos ≤ first.span.lo)
    (hhi : first.span.lo ≤ it.span.hi)
    (he : it.span.hi ≤ e)
    (hsnip : ∀ lo hi, env.span_to_snippet lo hi = some (sourceSlice src lo hi))
    (hbuf : (fsLookup v.changes (env.file_name_of first.span.lo)).isSome
        = true) :
    (visit_attrs env v it.attrs).2 = true
    ∧ visit_item env v it = format_missing_with_indent env v first.span.lo
    ∧ (visit_item env v it).last_pos = first.span.lo
    ∧ bufferOf (format_missing env (visit_item env v it) e)
          (env.file_name_of first.span.lo)
        = bufferOf (visit_item env v it) (env.file_name_of first.span.lo)
            ++ (sourceSlice src first.span.lo it.span.hi
                ++ sourceSlice src it.span.hi e) := by
  have h2 : visit_attrs env v it.attrs
      = (format_missing_with_indent env v first.span.lo, true) := by
    rw [hattrs]
    exact visit_attrs_skip env v first rest (hattrs ▸ hskip)
  have habort : visit_item env v it
      = format_missing_with_indent env v first.span.lo := by
    rw [visit_item_skip_aborts env v it hmod (by rw [h2]), h2]
  have hlp : (visit_item env v it).last_pos = first.span.lo := by
    rw [habort, format_missing_with_indent_last_pos]
    omega
  refine ⟨by rw [h2], habort, hlp, ?_⟩
  rw [← sourceSlice_split src _ _ _ hhi he]
  have hb : (fsLookup (visit_item env v it).changes
      (env.file_name_of first.span.lo)).isSome = true := by
    rw [habort]
    exact format_missing_with_indent_isSome env v first.span.lo _ hbuf
  have hmain := bufferOf_format_missing env src (visit_item env v it) e
      (env.file_name_of first.span.lo) hsnip (by rw [hlp])
      (by rw [hlp]; omega) hb
  rw [hmain, hlp]

/-- Witness for C3's amended theorem: the skip-marked extern-crate item of
`skipItemDemo`, flushed up to offset 26 afterwards. -/
theorem skip_attr_item_reproduced_witness :
    (visit_attrs demoEnv demoVisitor skipItemDemo.attrs).2 = true
    ∧ visit_item demoEnv demoVisitor skipItemDemo
        = format_missing_with_indent demoEnv demoVisitor 2
    ∧ (visit_item demoEnv demoVisitor skipItemDemo).last_pos = 2
    ∧ bufferOf (format_missing demoEnv
          (visit_item demoEnv demoVisitor skipItemDemo) 26) "a.rs"
        = bufferOf (visit_item demoEnv demoVisitor skipItemDemo) "a.rs"
            ++ (sourceSlice demoSrc 2 24 ++ sourceSlice demoSrc 24 26) :=
  skip_attr_item_reproduced demoEnv demoSrc demoVisitor skipItemDemo
    ⟨⟨2, 17⟩, MetaItem.metaWord SKIP_ANNOTATION⟩ [] 26 rfl rfl (by decide)
    (by decide) (by decide) (by decide) (fun lo hi => rfl) (by decide)

/-- Counterexample for C3 as stated ("every item (of any kind)"): a module
item carrying the skip marker is NOT suppressed — `visit_item` never
inspects a module's attributes ("Don't look at attributes for modules",
visitor.rs lines 140-151) — so the traversal descends into the module and
emits rewritten text for its child (a gap flush and a span write appear in
the trace, and the cursor advances past the child), instead of aborting
with nothing emitted. -/
theorem mod_item_skip_attr_ignored :
    containsSkip modItemDemo.attrs = true
    ∧ (visit_item demoEnv demoVisitor modItemDemo).trace
        = [Event.flushedGap 0 5, Event.wroteSpan 5 15]
    ∧ (visit_item demoEnv demoVisitor modItemDemo).last_pos = 15 := by
  refine ⟨by decide, ?_, ?_⟩ <;>
    simp [visit_item, visit_items, visit_mod, visit_attrs, modItemDemo,
      format_missing_with_indent, push_str_span, push_str, snippet, demoEnv,
      demoVisitor, span_to_filename, fsLookup, fsInsert, sourceSlice,
      Item.attrs, Item.node, Item.span, Item.ident, Item.vis]

/-! ## C6: budgets of a list-form use declaration -/

lemma visit_attrs_block_indent (env : Env) (v : FmtVisitor)
    (attrs : List Attribute) :
    ((visit_attrs env v attrs).1).block_indent = v.block_indent := by
  cases attrs with
  | nil => rfl
  | cons first rest =>
    simp only [visit_attrs]
    rcases h : rewrite_attrs env (first :: rest)
        (format_missing_with_indent env v first.span.lo).block_indent
        with _ | s
    · simp [format_missing_with_indent_block_indent]
    · simp [push_str_span_block_indent, format_missing_with_indent_block_indent]

/-- C6 (amended: the multi-line budget is the ideal width minus the current
indent, which is NOT larger than the one-line budget under the standard
configuration where the ideal width is below the maximum width): for every
list-form use declaration whose attributes do not suppress it, `visit_item`
flushes the gap, computes exactly the two budgets `max_width - indent`
(one-line) and `ideal_width - indent` (multi-line) from the current indent,
passes them with that indent to `rewrite_use_list`, writes the returned text
at the item's span, and advances the cursor to the item's end. -/
theorem use_list_budgets (env : Env) (v : FmtVisitor) (it : Item)
    (path : String) (plist : List String)
    (hnode : it.node = ItemKind.itemUse (ViewPath.viewPathList path plist))
    (hskip : (visit_attrs env v it.attrs).2 = false)
    (hbuf : (fsLookup (format_missing_with_indent env
          (visit_attrs env v it.attrs).1 it.span.lo).changes
        (span_to_filename env it.span)).isSome = true) :
    (visit_item env v it).trace
      = (format_missing_with_indent env (visit_attrs env v it.attrs).1
            it.span.lo).trace
        ++ [Event.calledRewriteUseList v.block_indent
              (env.max_width - v.block_indent)
              (env.ideal_width - v.block_indent),
            Event.wroteSpan it.span.lo it.span.hi]
    ∧ (visit_item env v it).last_pos = it.span.hi
    ∧ bufferOf (visit_item env v it) (span_to_filename env it.span)
        = bufferOf (format_missing_with_indent env
              (visit_attrs env v it.attrs).1 it.span.lo)
            (span_to_filename env it.span)
          ++ env.rewrite_use_list v.block_indent
               (env.max_width - v.block_indent)
               (env.ideal_width - v.block_indent) path plist it.vis := by
  rcases it with ⟨ident, attrs, vis, span, node⟩
  simp only [Item.attrs, Item.node, Item.span, Item.vis] at *
  subst hnode
  simp only [visit_item, hskip, Bool.false_eq_true, if_false]
  have hbi : (format_missing_with_indent env (visit_attrs env v attrs).1
      span.lo).block_indent = v.block_indent := by
    rw [format_missing_with_indent_block_indent, visit_attrs_block_indent]
  rw [hbi]
  refine ⟨?_, by trivial, ?_⟩
  · rw [push_str_span_trace]
    simp
  · exact bufferOf_push_str_congr
      (format_missing_with_indent env (visit_attrs env v attrs).1 span.lo) _
      (span_to_filename env span) _ rfl hbuf

/-- Witness for C6's amended theorem at the concrete use item of
`useItemDemo` (indent 0, widths 100 and 80). -/
theorem use_list_budgets_witness :
    (visit_item demoEnv demoVisitor useItemDemo).trace
      = (format_missing_with_indent demoEnv demoVisitor 2).trace
        ++ [Event.calledRewriteUseList 0 100 80, Event.wroteSpan 2 10]
    ∧ (visit_item demoEnv demoVisitor useItemDemo).last_pos = 10
    ∧ bufferOf (visit_item demoEnv demoVisitor useItemDemo) "a.rs"
        = bufferOf (format_missing_with_indent demoEnv demoVisitor 2) "a.rs"
          ++ demoEnv.rewrite_use_list 0 100 80 "p" ["a", "b"] false :=
  use_list_budgets demoEnv demoVisitor useItemDemo "p" ["a", "b"] rfl rfl
    (by decide)

/-- Counterexample for C6 as stated: with the standard configuration
(maximum width 100, ideal width 80, indent 0) the budgets the visitor passes
are one-line 100 and multi-line 80 — recorded in the trace — and the
multi-line budget is NOT larger than the one-line budget. -/
theorem use_list_multi_budget_not_larger :
    (visit_item demoEnv demoVisitor useItemDemo).trace
      = [Event.flushedGap 0 2, Event.calledRewriteUseList 0 100 80,
         Event.wroteSpan 2 10]
    ∧ ¬ (100 < 80) := by
  constructor
  · simp [visit_item, visit_attrs, useItemDemo, format_missing_with_indent,
      push_str_span, push_str, snippet, demoEnv, demoVisitor,
      span_to_filename, fsLookup, fsInsert, sourceSlice, Item.attrs,
      Item.node, Item.span, Item.vis]
  · decide

end Rustfmt
